import Mathlib

set_option maxRecDepth 8192

/-!
Verification development for the latextotext repository (src/latex.py).

Python strings are modelled as `List Char`.  Each definition below is a
shallow embedding of the corresponding Python function in src/latex.py;
`json.dumps` / `json.loads` (restricted to single string documents, the
only case the program produces) and `str.replace`, `str.count`, `str.strip`
and the substring operator `in` are modelled after CPython's semantics.
Scanning functions (`replaceF`, `countF`, `decodeBodyF`) take a fuel
argument so that they are structurally recursive; the wrappers supply
`length` fuel, which is always sufficient since every step consumes at
least one character.
-/

/-- Whitespace characters stripped by Python's `str.strip()` (the
characters for which `str.isspace()` holds). -/
def isPySpace (c : Char) : Bool :=
  c == ' ' || c == '\t' || c == '\n' || c == '\x0b' || c == '\x0c' || c == '\r' ||
  c == '\x1c' || c == '\x1d' || c == '\x1e' || c == '\x1f' || c == '\x85' ||
  c == '\xa0' || c == '\u1680' ||
  (0x2000 ≤ c.toNat && c.toNat ≤ 0x200a) ||
  c == '\u2028' || c == '\u2029' || c == '\u202f' || c == '\u205f' || c == '\u3000'

/-- Left part of Python's `str.strip()`. -/
def lstrip (s : List Char) : List Char := s.dropWhile isPySpace

/-- Right part of Python's `str.strip()`. -/
def rstrip (s : List Char) : List Char := (s.reverse.dropWhile isPySpace).reverse

/-- Python's `str.strip()` with no argument: drop leading and trailing
whitespace. -/
def pyStrip (s : List Char) : List Char := lstrip (rstrip s)

/-- Python's substring operator: `containsSub pat s` models `pat in s`. -/
def containsSub (pat : List Char) : List Char → Bool
  | [] => pat.isEmpty
  | c :: rest => pat.isPrefixOf (c :: rest) || containsSub pat rest

/-- The five delimiter tokens scanned for by `normalize_latex`
(src/latex.py line 55), in source order. -/
def markers : List (List Char) :=
  [("\\(").data, ("\\)").data, ("$$").data, ("\\[").data, ("\\]").data]

/-- Embedding of `normalize_latex` (src/latex.py lines 51-57): strip, return
empty for blank input, return the stripped text when any marker occurs in
it, otherwise wrap in `$$` lines. -/
def normalize_latex (source : List Char) : List Char :=
  if pyStrip source = [] then []
  else if markers.any (fun m => containsSub m (pyStrip source)) then pyStrip source
  else ("$$\n").data ++ pyStrip source ++ ("\n$$").data

/-- Embedding of `default_sample` (src/latex.py lines 60-65).  Braces are
written with their `\x7b` / `\x7d` escapes. -/
def default_sample : List Char :=
  ("E = mc^2\n\\int_0^\x7b\\infty\x7d e^\x7b-x^2\x7d\\,dx = \\frac\x7b\\sqrt\x7b\\pi\x7d\x7d\x7b2\x7d\n\\textbf\x7bМатрица: \x7d\\begin\x7bbmatrix\x7d1 & 0 \\ 0 & 1\\end\x7bbmatrix\x7d").data

/-- Lowercase hexadecimal digit, as produced by Python's
`'\\u\x7b0:04x\x7d'.format`. -/
def hexDig (n : Nat) : Char :=
  if n < 10 then Char.ofNat (48 + n) else Char.ofNat (87 + n)

/-- Four lowercase hex digits of a number below 0x10000. -/
def u4 (n : Nat) : List Char :=
  [hexDig (n / 4096 % 16), hexDig (n / 256 % 16), hexDig (n / 16 % 16), hexDig (n % 16)]

/-- Escape of one character in Python's `json.dumps` with its default
`ensure_ascii=True` (CPython `py_encode_basestring_ascii`): the named
escapes, `\uXXXX` for other control or non-ASCII characters, and surrogate
pairs for code points above 0xFFFF. -/
def escChar (c : Char) : List Char :=
  if c = '"' then ['\\', '"']
  else if c = '\\' then ['\\', '\\']
  else if c = '\x08' then ['\\', 'b']
  else if c = '\x0c' then ['\\', 'f']
  else if c = '\n' then ['\\', 'n']
  else if c = '\r' then ['\\', 'r']
  else if c = '\t' then ['\\', 't']
  else if c.toNat < 0x20 then '\\' :: 'u' :: u4 c.toNat
  else if c.toNat ≤ 0x7e then [c]
  else if c.toNat ≤ 0xffff then '\\' :: 'u' :: u4 c.toNat
  else
    ('\\' :: 'u' :: u4 (0xd800 + (c.toNat - 0x10000) / 0x400)) ++
    ('\\' :: 'u' :: u4 (0xdc00 + (c.toNat - 0x10000) % 0x400))

/-- Escaped body of a string under `json.dumps`. -/
def escBody : List Char → List Char
  | [] => []
  | c :: rest => escChar c ++ escBody rest

/-- Embedding of Python's `json.dumps` applied to a string. -/
def jsonDumps (s : List Char) : List Char := '"' :: escBody s ++ ['"']

/-- Value of one hex digit accepted by `json.loads` in a `\uXXXX` escape. -/
def hexDigitVal (c : Char) : Option Nat :=
  if '0' ≤ c ∧ c ≤ '9' then some (c.toNat - 48)
  else if 'a' ≤ c ∧ c ≤ 'f' then some (c.toNat - 87)
  else if 'A' ≤ c ∧ c ≤ 'F' then some (c.toNat - 55)
  else none

/-- Value of four hex digits. -/
def hex4 (a b c d : Char) : Option Nat :=
  (hexDigitVal a).bind fun x =>
    (hexDigitVal b).bind fun y =>
      (hexDigitVal c).bind fun z =>
        (hexDigitVal d).map fun w => x * 4096 + y * 256 + z * 16 + w

/-- Decoding of the second half of a surrogate pair in a JSON string
literal; `hi` is the already-read high surrogate value. -/
def decodeLow (hi : Nat) : List Char → Option (Char × List Char)
  | c1 :: c2 :: a :: b :: c :: d :: rest =>
    if c1 = '\\' ∧ c2 = 'u' then
      (hex4 a b c d).bind fun lo =>
        if 0xdc00 ≤ lo ∧ lo ≤ 0xdfff then
          some (Char.ofNat (0x10000 + (hi - 0xd800) * 0x400 + (lo - 0xdc00)), rest)
        else none
    else none
  | _ => none

/-- Decoding of a `\uXXXX` escape (the part after `\u`).  A lone surrogate,
which Python would turn into an unpaired surrogate code point that `Char`
cannot represent, is rejected; the encoder never produces one. -/
def decodeU : List Char → Option (Char × List Char)
  | a :: b :: c :: d :: rest =>
    (hex4 a b c d).bind fun n =>
      if n < 0xd800 ∨ 0xdfff < n then some (Char.ofNat n, rest)
      else if n ≤ 0xdbff then decodeLow n rest
      else none
  | _ => none

/-- Decoding of a backslash escape (the part after `\`). -/
def decodeEsc : List Char → Option (Char × List Char)
  | [] => none
  | e :: rest =>
    if e = '"' then some ('"', rest)
    else if e = '\\' then some ('\\', rest)
    else if e = '/' then some ('/', rest)
    else if e = 'b' then some ('\x08', rest)
    else if e = 'f' then some ('\x0c', rest)
    else if e = 'n' then some ('\n', rest)
    else if e = 'r' then some ('\r', rest)
    else if e = 't' then some ('\t', rest)
    else if e = 'u' then decodeU rest
    else none

/-- Decoding of one character of a JSON string body.  Unescaped control
characters are rejected (`json.loads` is strict by default) and an
unescaped quote is not a body character. -/
def decodeStep : List Char → Option (Char × List Char)
  | [] => none
  | c :: rest =>
    if c = '\\' then decodeEsc rest
    else if c = '"' ∨ c.toNat < 0x20 then none
    else some (c, rest)

/-- Fueled decoding of a JSON string body up to and including the closing
quote, rejecting trailing data after it. -/
def decodeBodyF : Nat → List Char → Option (List Char)
  | 0, _ => none
  | fuel + 1, s =>
    if s = ['"'] then some []
    else (decodeStep s).bind fun cr => (decodeBodyF fuel cr.2).map (fun l => cr.1 :: l)

/-- Embedding of Python's `json.loads` restricted to documents that are a
single JSON string with no surrounding whitespace (the only documents the
program produces). -/
def jsonLoads (s : List Char) : Option (List Char) :=
  match s with
  | '"' :: rest => decodeBodyF rest.length rest
  | _ => none

/-- Fueled left-to-right scan of Python's `str.replace` for a non-empty
pattern. -/
def replaceF (pat rep : List Char) : Nat → List Char → List Char
  | 0, s => s
  | _ + 1, [] => []
  | fuel + 1, c :: rest =>
    if pat.isPrefixOf (c :: rest) then rep ++ replaceF pat rep fuel (rest.drop (pat.length - 1))
    else c :: replaceF pat rep fuel rest

/-- Interleaving used by Python's `str.replace` with an empty pattern. -/
def interleave (rep : List Char) : List Char → List Char
  | [] => []
  | c :: rest => c :: (rep ++ interleave rep rest)

/-- Embedding of Python's `s.replace(pat, rep)`. -/
def pyReplace (s pat rep : List Char) : List Char :=
  match pat with
  | [] => rep ++ interleave rep s
  | _ :: _ => replaceF pat rep s.length s

/-- Fueled left-to-right scan of Python's `str.count` for a non-empty
pattern (non-overlapping occurrences). -/
def countF (pat : List Char) : Nat → List Char → Nat
  | 0, _ => 0
  | _ + 1, [] => 0
  | fuel + 1, c :: rest =>
    if pat.isPrefixOf (c :: rest) then countF pat fuel (rest.drop (pat.length - 1)) + 1
    else countF pat fuel rest

/-- Embedding of Python's `s.count(pat)`. -/
def pyCount (s pat : List Char) : Nat :=
  match pat with
  | [] => s.length + 1
  | _ :: _ => countF pat s.length s

/-- The content placeholder token of the template. -/
def preloadTok : List Char := ("__PRELOAD__").data

/-- The sample placeholder token of the template. -/
def sampleTok : List Char := ("__SAMPLE__").data

/-- Embedding of `build_page` (src/latex.py lines 68-73) on an already
loaded template string: substitute the JSON-encoded user content for the
content placeholder, then the JSON-encoded fallback sample for the sample
placeholder.  Loading the template from disk is the caller's concern and
is modelled in `run_main`. -/
def build_page (latex template : List Char) : List Char :=
  pyReplace (pyReplace template preloadTok (jsonDumps latex)) sampleTok (jsonDumps default_sample)

/-- Template text before the content placeholder in the modelled template. -/
def tplA : List Char := ("<html><body><script>var preload = ").data

/-- Template text between the two placeholders in the modelled template. -/
def tplB : List Char := ("; var sample = ").data

/-- Template text after the sample placeholder in the modelled template. -/
def tplC : List Char := ("; render(preload, sample);</script></body></html>").data

/-- Modelled from the spec: the co-located template resource `index.html`
is not part of src/; the spec's template contract only requires it to be a
fixed page containing the content placeholder and the sample placeholder,
each once.  This constant is such a page. -/
def templateModel : List Char := tplA ++ preloadTok ++ tplB ++ sampleTok ++ tplC

/-- Command-line arguments of the program (argparse namespace): optional
file path, optional literal text, and the open-in-viewer flag. -/
structure Args where
  file : Option (List Char)
  text : Option (List Char)
  openFlag : Bool

/-- Reading standard input in `load_latex`: a stream that is blank after
stripping yields the empty string, otherwise the raw (unstripped) data. -/
def loadStdin (stdin : List Char) : Except (List Char) (List Char) :=
  if pyStrip stdin = [] then Except.ok [] else Except.ok stdin

/-- Embedding of `load_latex` (src/latex.py lines 36-48).  `fs` maps a path
to the contents of the existing regular file at that path, or `none` when
there is no such file; `args.file.is_file()` is modelled by `fs p` being
`some`.  Python's `if args.text:` is a truthiness test, so an empty text
argument falls through to standard input. -/
def load_latex (args : Args) (fs : List Char → Option (List Char)) (stdin : List Char) :
    Except (List Char) (List Char) :=
  match args.file with
  | some p =>
    match fs p with
    | some content => Except.ok content
    | none => Except.error (("No such file: ").data ++ p)
  | none =>
    match args.text with
    | some t => if t = [] then loadStdin stdin else Except.ok t
    | none => loadStdin stdin

/-- Outcome of one program run: standard output, standard error, exit code. -/
structure Outcome where
  stdout : List Char
  stderr : List Char
  exitCode : Nat
deriving DecidableEq

/-- Embedding of `write_and_open` (src/latex.py lines 76-82): the document
is written to the fresh temporary location `outPath` (the write itself is
assumed to succeed; IO failure is outside this model) and the viewer is
launched when requested.  `viewerOk` is the result of `webbrowser.open`,
which reports failure by returning `false` rather than raising; the
function returns the path unconditionally. -/
def write_and_open (_html : List Char) (shouldOpen : Bool) (outPath : List Char)
    (viewerOk : Bool) : List Char × Bool :=
  (outPath, shouldOpen && viewerOk)

/-- Embedding of `main` (src/latex.py lines 85-98): resolve the input,
normalize, check the template resource (`template` is its contents when it
exists), build the page, write it and report.  Any error is formatted as
`Error: <message>` on standard error with exit code 1. -/
def run_main (args : Args) (fs : List Char → Option (List Char)) (stdin : List Char)
    (template : Option (List Char)) (tplPath outPath : List Char) (viewerOk : Bool) : Outcome :=
  match load_latex args fs stdin with
  | Except.error msg => ⟨[], ("Error: ").data ++ msg, 1⟩
  | Except.ok raw =>
    match template with
    | none => ⟨[], ("Error: ").data ++ ("Template not found: ").data ++ tplPath, 1⟩
    | some tpl =>
      let doc := build_page (normalize_latex raw) tpl
      let res := write_and_open doc args.openFlag outPath viewerOk
      ⟨("Preview written to ").data ++ res.fst, [], 0⟩

/-! ### Substring containment -/

theorem containsSub_iff (pat : List Char) : ∀ s, containsSub pat s = true ↔ pat <:+: s := by
  intro s
  induction s with
  | nil => simp [containsSub, List.isEmpty_iff]
  | cons c rest ih => simp [containsSub, List.infix_cons_iff, ih, or_comm]

theorem not_infix_of_containsSub (pat s : List Char) (h : containsSub pat s = false) :
    ¬ pat <:+: s := by
  intro hi
  rw [← containsSub_iff] at hi
  rw [h] at hi
  exact Bool.false_ne_true hi

theorem infix_of_containsSub (pat s : List Char) (h : containsSub pat s = true) :
    pat <:+: s := (containsSub_iff pat s).mp h

theorem infix_iff_drop_pre (pat s : List Char) :
    pat <:+: s ↔ ∃ i, pat <+: s.drop i := by
  constructor
  · rintro ⟨u, v, huv⟩
    refine ⟨u.length, ?_⟩
    have : s = u ++ (pat ++ v) := by rw [← huv]; simp
    rw [this, List.drop_left]
    exact List.prefix_append pat v
  · rintro ⟨i, hp⟩
    exact List.infix_iff_prefix_suffix.mpr ⟨s.drop i, hp, List.drop_suffix i s⟩

/-! ### Stripping -/

theorem dropWhile_self (p : Char → Bool) (l : List Char) :
    (l.dropWhile p).dropWhile p = l.dropWhile p := by
  induction l with
  | nil => rfl
  | cons c rest ih =>
    by_cases h : p c
    · simp [List.dropWhile_cons, h, ih]
    · simp [List.dropWhile_cons, h]

theorem dropWhile_eq_self_of_pre (p : Char → Bool) (w v : List Char)
    (hw : w.dropWhile p = w) (hv : v <+: w) : v.dropWhile p = v := by
  cases v with
  | nil => rfl
  | cons c v' =>
    cases w with
    | nil => simp at hv
    | cons d w' =>
      rw [List.cons_prefix_cons] at hv
      obtain ⟨rfl, _⟩ := hv
      by_cases h : p c
      · exfalso
        rw [List.dropWhile_cons_of_pos h] at hw
        have := congrArg List.length hw
        simp at this
        have hle := (List.dropWhile_sublist (l := w') p).length_le
        omega
      · exact List.dropWhile_cons_of_neg h

theorem lstrip_idem (s : List Char) : lstrip (lstrip s) = lstrip s :=
  dropWhile_self isPySpace s

theorem rstrip_idem (s : List Char) : rstrip (rstrip s) = rstrip s := by
  unfold rstrip
  rw [List.reverse_reverse, dropWhile_self]

theorem rstrip_of_lstrip_of_rstrip (s : List Char) :
    rstrip (lstrip (rstrip s)) = lstrip (rstrip s) := by
  have h1 : (rstrip s).reverse.dropWhile isPySpace = (rstrip s).reverse := by
    unfold rstrip
    rw [List.reverse_reverse, dropWhile_self]
  have h2 : (lstrip (rstrip s)).reverse <+: (rstrip s).reverse :=
    List.reverse_prefix.mpr (List.dropWhile_suffix isPySpace)
  have h3 := dropWhile_eq_self_of_pre isPySpace _ _ h1 h2
  have h4 : rstrip (lstrip (rstrip s))
      = ((lstrip (rstrip s)).reverse.dropWhile isPySpace).reverse := rfl
  rw [h4, h3, List.reverse_reverse]

theorem pyStrip_idem (s : List Char) : pyStrip (pyStrip s) = pyStrip s := by
  unfold pyStrip
  rw [rstrip_of_lstrip_of_rstrip, lstrip_idem]

theorem lstrip_cons_neg (c : Char) (l : List Char) (h : isPySpace c = false) :
    lstrip (c :: l) = c :: l := by
  unfold lstrip
  rw [List.dropWhile_cons_of_neg (by simp [h])]

theorem rstrip_snoc_neg (a : List Char) (c : Char) (h : isPySpace c = false) :
    rstrip (a ++ [c]) = a ++ [c] := by
  unfold rstrip
  rw [List.reverse_append]
  simp only [List.reverse_cons, List.reverse_nil, List.nil_append, List.singleton_append]
  rw [List.dropWhile_cons_of_neg (by simp [h])]
  simp

theorem pyStrip_wrapped (t : List Char) :
    pyStrip (("$$\n").data ++ t ++ ("\n$$").data) = ("$$\n").data ++ t ++ ("\n$$").data := by
  have hdollar : isPySpace '$' = false := by decide
  have heq : ("$$\n").data ++ t ++ ("\n$$").data
      = ('$' :: '$' :: '\n' :: (t ++ ['\n', '$'])) ++ ['$'] := by simp
  rw [heq]
  unfold pyStrip
  rw [rstrip_snoc_neg _ _ hdollar]
  have heq2 : ('$' :: '$' :: '\n' :: (t ++ ['\n', '$'])) ++ ['$']
      = '$' :: ('$' :: '\n' :: (t ++ ['\n', '$']) ++ ['$']) := rfl
  rw [heq2, lstrip_cons_neg _ _ hdollar]

/-! ### Replace and count: stepping lemmas -/

theorem replaceF_congr (pat rep : List Char) :
    ∀ f1 f2 s, s.length ≤ f1 → s.length ≤ f2 →
      replaceF pat rep f1 s = replaceF pat rep f2 s := by
  intro f1
  induction f1 with
  | zero =>
    intro f2 s h1 _
    have : s = [] := List.length_eq_zero.mp (Nat.le_zero.mp h1)
    subst this
    cases f2 <;> rfl
  | succ f ih =>
    intro f2 s h1 h2
    cases s with
    | nil => cases f2 <;> rfl
    | cons c rest =>
      cases f2 with
      | zero => simp at h2
      | succ g =>
        simp only [replaceF]
        by_cases hp : pat.isPrefixOf (c :: rest)
        · rw [if_pos hp, if_pos hp]
          have hd : (rest.drop (pat.length - 1)).length ≤ f := by
            simp at h1 ⊢
            omega
          have hd2 : (rest.drop (pat.length - 1)).length ≤ g := by
            simp at h2 ⊢
            omega
          rw [ih g _ hd hd2]
        · rw [if_neg hp, if_neg hp]
          simp at h1 h2
          rw [ih g rest (by omega) (by omega)]

theorem countF_congr (pat : List Char) :
    ∀ f1 f2 s, s.length ≤ f1 → s.length ≤ f2 →
      countF pat f1 s = countF pat f2 s := by
  intro f1
  induction f1 with
  | zero =>
    intro f2 s h1 _
    have : s = [] := List.length_eq_zero.mp (Nat.le_zero.mp h1)
    subst this
    cases f2 <;> rfl
  | succ f ih =>
    intro f2 s h1 h2
    cases s with
    | nil => cases f2 <;> rfl
    | cons c rest =>
      cases f2 with
      | zero => simp at h2
      | succ g =>
        simp only [countF]
        by_cases hp : pat.isPrefixOf (c :: rest)
        · rw [if_pos hp, if_pos hp]
          have hd : (rest.drop (pat.length - 1)).length ≤ f := by
            simp at h1 ⊢
            omega
          have hd2 : (rest.drop (pat.length - 1)).length ≤ g := by
            simp at h2 ⊢
            omega
          rw [ih g _ hd hd2]
        · rw [if_neg hp, if_neg hp]
          simp at h1 h2
          rw [ih g rest (by omega) (by omega)]

theorem pyReplace_nil (pat rep : List Char) (h : pat ≠ []) : pyReplace [] pat rep = [] := by
  cases pat with
  | nil => exact absurd rfl h
  | cons p ps => rfl

theorem pyCount_nil (pat : List Char) (h : pat ≠ []) : pyCount [] pat = 0 := by
  cases pat with
  | nil => exact absurd rfl h
  | cons p ps => rfl

theorem pyReplace_pos (pat rep s : List Char) (h : pat ≠ []) (hp : pat <+: s) :
    pyReplace s pat rep = rep ++ pyReplace (s.drop pat.length) pat rep := by
  cases pat with
  | nil => exact absurd rfl h
  | cons p ps =>
    cases s with
    | nil => simp at hp
    | cons c rest =>
      show replaceF (p :: ps) rep (rest.length + 1) (c :: rest) = _
      rw [replaceF, if_pos (List.isPrefixOf_iff_prefix.mpr hp)]
      have hlen : ((p : Char) :: ps).length - 1 = ps.length := by simp
      have hdrop : (c :: rest).drop ((p :: ps).length) = rest.drop (ps.length) := by
        simp [List.drop_succ_cons]
      rw [hdrop, hlen]
      show _ = rep ++ replaceF (p :: ps) rep (rest.drop ps.length).length (rest.drop ps.length)
      rw [replaceF_congr (p :: ps) rep rest.length (rest.drop ps.length).length
        (rest.drop ps.length) (by simp) (le_refl _)]

theorem pyCount_pos (pat s : List Char) (h : pat ≠ []) (hp : pat <+: s) :
    pyCount s pat = pyCount (s.drop pat.length) pat + 1 := by
  cases pat with
  | nil => exact absurd rfl h
  | cons p ps =>
    cases s with
    | nil => simp at hp
    | cons c rest =>
      show countF (p :: ps) (rest.length + 1) (c :: rest) = _
      rw [countF, if_pos (List.isPrefixOf_iff_prefix.mpr hp)]
      have hlen : ((p : Char) :: ps).length - 1 = ps.length := by simp
      have hdrop : (c :: rest).drop ((p :: ps).length) = rest.drop (ps.length) := by
        simp [List.drop_succ_cons]
      rw [hdrop, hlen]
      show countF (p :: ps) rest.length (rest.drop ps.length) + 1
        = countF (p :: ps) (rest.drop ps.length).length (rest.drop ps.length) + 1
      rw [countF_congr (p :: ps) rest.length (rest.drop ps.length).length
        (rest.drop ps.length) (by simp) (le_refl _)]

theorem pyReplace_neg (pat rep : List Char) (c : Char) (rest : List Char) (h : pat ≠ [])
    (hp : ¬ pat <+: (c :: rest)) :
    pyReplace (c :: rest) pat rep = c :: pyReplace rest pat rep := by
  cases pat with
  | nil => exact absurd rfl h
  | cons p ps =>
    show replaceF (p :: ps) rep (rest.length + 1) (c :: rest) = _
    rw [replaceF, if_neg (fun hb => hp (List.isPrefixOf_iff_prefix.mp hb))]
    rfl

theorem pyCount_neg (pat : List Char) (c : Char) (rest : List Char) (h : pat ≠ [])
    (hp : ¬ pat <+: (c :: rest)) :
    pyCount (c :: rest) pat = pyCount rest pat := by
  cases pat with
  | nil => exact absurd rfl h
  | cons p ps =>
    show countF (p :: ps) (rest.length + 1) (c :: rest) = _
    rw [countF, if_neg (fun hb => hp (List.isPrefixOf_iff_prefix.mp hb))]
    rfl

theorem pyReplace_match_head (pat rep r : List Char) (h : pat ≠ []) :
    pyReplace (pat ++ r) pat rep = rep ++ pyReplace r pat rep := by
  rw [pyReplace_pos pat rep (pat ++ r) h (List.prefix_append pat r), List.drop_left]

theorem pyCount_match_head (pat r : List Char) (h : pat ≠ []) :
    pyCount (pat ++ r) pat = pyCount r pat + 1 := by
  rw [pyCount_pos pat (pat ++ r) h (List.prefix_append pat r), List.drop_left]

theorem pyReplace_skip (pat rep : List Char) (h : pat ≠ []) :
    ∀ a r, (∀ i, i < a.length → ¬ pat <+: (a.drop i ++ r)) →
      pyReplace (a ++ r) pat rep = a ++ pyReplace r pat rep := by
  intro a
  induction a with
  | nil => intro r _; simp
  | cons c a' ih =>
    intro r H
    have h0 : ¬ pat <+: (c :: (a' ++ r)) := by
      have := H 0 (by simp)
      simpa using this
    rw [List.cons_append, pyReplace_neg pat rep c (a' ++ r) h h0]
    rw [ih r (fun i hi => by
      have := H (i + 1) (by simp; omega)
      simpa using this)]
    rfl

theorem pyCount_skip (pat : List Char) (h : pat ≠ []) :
    ∀ a r, (∀ i, i < a.length → ¬ pat <+: (a.drop i ++ r)) →
      pyCount (a ++ r) pat = pyCount r pat := by
  intro a
  induction a with
  | nil => intro r _; simp
  | cons c a' ih =>
    intro r H
    have h0 : ¬ pat <+: (c :: (a' ++ r)) := by
      have := H 0 (by simp)
      simpa using this
    rw [List.cons_append, pyCount_neg pat c (a' ++ r) h h0]
    exact ih r (fun i hi => by
      have := H (i + 1) (by simp; omega)
      simpa using this)

theorem headNotMem_no_pre (p : Char) (pat' a r : List Char) (hmem : p ∉ a) :
    ∀ i, i < a.length → ¬ (p :: pat') <+: (a.drop i ++ r) := by
  intro i hi hpre
  rw [List.drop_eq_getElem_cons hi, List.cons_append, List.cons_prefix_cons] at hpre
  exact hmem (hpre.1 ▸ List.getElem_mem hi)

theorem pyReplace_skip_head (p : Char) (pat' rep a r : List Char) (hmem : p ∉ a) :
    pyReplace (a ++ r) (p :: pat') rep = a ++ pyReplace r (p :: pat') rep :=
  pyReplace_skip (p :: pat') rep (by simp) a r (headNotMem_no_pre p pat' a r hmem)

theorem pyCount_skip_head (p : Char) (pat' a r : List Char) (hmem : p ∉ a) :
    pyCount (a ++ r) (p :: pat') = pyCount r (p :: pat') :=
  pyCount_skip (p :: pat') (by simp) a r (headNotMem_no_pre p pat' a r hmem)

theorem pyReplace_no_occ (pat rep s : List Char) (h : pat ≠ []) (hno : ¬ pat <:+: s) :
    pyReplace s pat rep = s := by
  have H : ∀ i, i < s.length → ¬ pat <+: (s.drop i ++ []) := by
    intro i _ hpre
    rw [List.append_nil] at hpre
    exact hno ((infix_iff_drop_pre pat s).mpr ⟨i, hpre⟩)
  have := pyReplace_skip pat rep h s [] H
  rw [List.append_nil] at this
  rw [this, pyReplace_nil pat rep h, List.append_nil]

theorem pyCount_no_occ (pat s : List Char) (h : pat ≠ []) (hno : ¬ pat <:+: s) :
    pyCount s pat = 0 := by
  have H : ∀ i, i < s.length → ¬ pat <+: (s.drop i ++ []) := by
    intro i _ hpre
    rw [List.append_nil] at hpre
    exact hno ((infix_iff_drop_pre pat s).mpr ⟨i, hpre⟩)
  have := pyCount_skip pat h s [] H
  rw [List.append_nil] at this
  rw [this, pyCount_nil pat h]

/-! ### Occurrences across a separating character -/

theorem pre_through_sep (c : Char) :
    ∀ (a : List Char) (pat b : List Char), c ∉ pat → pat <+: (a ++ c :: b) → pat <+: a := by
  intro a
  induction a with
  | nil =>
    intro pat b hc hp
    cases pat with
    | nil => exact List.nil_prefix
    | cons p pat' =>
      rw [List.nil_append, List.cons_prefix_cons] at hp
      exact absurd (hp.1 ▸ List.mem_cons_self p pat') hc
  | cons x a' ih =>
    intro pat b hc hp
    cases pat with
    | nil => exact List.nil_prefix
    | cons p pat' =>
      rw [List.cons_append, List.cons_prefix_cons] at hp
      obtain ⟨rfl, hp'⟩ := hp
      have := ih pat' b (fun hm => hc (List.mem_cons_of_mem _ hm)) hp'
      exact List.cons_prefix_cons.mpr ⟨rfl, this⟩

theorem infix_sep (c : Char) (pat : List Char) (hc : c ∉ pat) :
    ∀ (a b : List Char), (pat <:+: (a ++ c :: b) ↔ pat <:+: a ∨ pat <:+: b) := by
  intro a
  induction a with
  | nil =>
    intro b
    constructor
    · intro h
      rw [List.nil_append, List.infix_cons_iff] at h
      rcases h with h | h
      · have := pre_through_sep c [] pat b hc (by simpa using h)
        rw [List.prefix_nil] at this
        exact Or.inl (this ▸ List.nil_infix)
      · exact Or.inr h
    · rintro (h | h)
      · rw [List.infix_nil] at h
        exact h ▸ List.nil_infix
      · exact List.infix_cons h
  | cons x a' ih =>
    intro b
    constructor
    · intro h
      rw [List.cons_append, List.infix_cons_iff] at h
      rcases h with h | h
      · have := pre_through_sep c (x :: a') pat b hc (by simpa using h)
        exact Or.inl ( List.IsPrefix.isInfix this)
      · rcases (ih b).mp h with h' | h'
        · exact Or.inl (List.infix_cons h')
        · exact Or.inr h'
    · rintro (h | h)
      · obtain ⟨u, v, huv⟩ := h
        exact ⟨u, v ++ c :: b, by rw [← huv]; simp⟩
      · obtain ⟨u, v, huv⟩ := h
        exact ⟨(x :: a') ++ c :: u, v, by rw [← huv]; simp⟩

/-! ### Occurrences and replacement -/

theorem pre_of_pre_replace (pat : List Char) (hpat : pat ≠ []) (g : Char) (mid : List Char) :
    ∀ n s q, s.length ≤ n → q ≠ [] → g ∉ q →
      q <+: pyReplace s pat (g :: mid) → q <+: s := by
  intro n
  induction n with
  | zero =>
    intro s q hs hq _ hpre
    have : s = [] := List.length_eq_zero.mp (Nat.le_zero.mp hs)
    subst this
    rw [pyReplace_nil pat (g :: mid) hpat, List.prefix_nil] at hpre
    exact absurd hpre hq
  | succ n ih =>
    intro s q hs hq hg hpre
    by_cases hp : pat <+: s
    · rw [pyReplace_pos pat (g :: mid) s hpat hp] at hpre
      cases q with
      | nil => exact absurd rfl hq
      | cons a q' =>
        rw [List.cons_append, List.cons_prefix_cons] at hpre
        exact absurd (hpre.1 ▸ List.mem_cons_self a q') hg
    · cases s with
      | nil =>
        rw [pyReplace_nil pat (g :: mid) hpat, List.prefix_nil] at hpre
        exact absurd hpre hq
      | cons c rest =>
        rw [pyReplace_neg pat (g :: mid) c rest hpat hp] at hpre
        cases q with
        | nil => exact absurd rfl hq
        | cons a q' =>
          rw [List.cons_prefix_cons] at hpre
          obtain ⟨rfl, hpre'⟩ := hpre
          rcases List.eq_nil_or_concat q' with rfl | _
          · exact List.cons_prefix_cons.mpr ⟨rfl, List.nil_prefix⟩
          · have hq' : q' ≠ [] := by
              rename_i hcon
              obtain ⟨_, _, rfl⟩ := hcon
              simp
            have := ih rest q' (by simpa using hs) hq'
              (fun hm => hg (List.mem_cons_of_mem _ hm)) hpre'
            exact List.cons_prefix_cons.mpr ⟨rfl, this⟩

theorem mid_infix_guard (g : Char) (mid : List Char) : mid <:+: (g :: (mid ++ [g])) :=
  ⟨[g], [g], by simp⟩

theorem no_new_occurrence (pat1 pat2 : List Char) (g : Char) (mid : List Char)
    (h1 : pat1 ≠ []) (hg : g ∉ pat2) (hrep : ¬ pat2 <:+: (g :: (mid ++ [g]))) :
    ∀ n s, s.length ≤ n → ¬ pat2 <:+: s →
      ¬ pat2 <:+: pyReplace s pat1 (g :: (mid ++ [g])) := by
  intro n
  induction n with
  | zero =>
    intro s hs hno
    have : s = [] := List.length_eq_zero.mp (Nat.le_zero.mp hs)
    subst this
    rw [pyReplace_nil pat1 _ h1]
    exact hno
  | succ n ih =>
    intro s hs hno hin
    have h2 : pat2 ≠ [] := fun he => hno (he ▸ List.nil_infix)
    by_cases hp : pat1 <+: s
    · rw [pyReplace_pos pat1 _ s h1 hp] at hin
      have hform : (g :: (mid ++ [g])) ++ pyReplace (s.drop pat1.length) pat1 (g :: (mid ++ [g]))
          = g :: (mid ++ g :: pyReplace (s.drop pat1.length) pat1 (g :: (mid ++ [g]))) := by
        simp
      rw [hform, List.infix_cons_iff] at hin
      rcases hin with hin | hin
      · cases pat2 with
        | nil => exact h2 rfl
        | cons a q' =>
          rw [List.cons_prefix_cons] at hin
          exact hg (hin.1 ▸ List.mem_cons_self a q')
      · rcases (infix_sep g pat2 hg mid _).mp hin with hin | hin
        · exact hrep (hin.trans (mid_infix_guard g mid))
        · have hdrop : ¬ pat2 <:+: s.drop pat1.length :=
            fun hd => hno (hd.trans ( List.IsSuffix.isInfix (List.drop_suffix _ s)))
          have hlen : (s.drop pat1.length).length ≤ n := by
            have : 1 ≤ pat1.length := by
              cases pat1 with
              | nil => exact absurd rfl h1
              | cons _ _ => simp
            have hs1 : 1 ≤ s.length := by
              have := hp.length_le
              omega
            simp
            omega
          exact ih (s.drop pat1.length) hlen hdrop hin
    · cases s with
      | nil =>
        rw [pyReplace_nil pat1 _ h1] at hin
        exact hno hin
      | cons c rest =>
        rw [pyReplace_neg pat1 _ c rest h1 hp] at hin
        rw [List.infix_cons_iff] at hin
        rcases hin with hin | hin
        · cases pat2 with
          | nil => exact h2 rfl
          | cons a q' =>
            rw [List.cons_prefix_cons] at hin
            obtain ⟨rfl, hin'⟩ := hin
            rcases List.eq_nil_or_concat q' with rfl | hcon
            · exact hno ( List.IsPrefix.isInfix
                (List.cons_prefix_cons.mpr ⟨rfl, List.nil_prefix⟩))
            · have hq' : q' ≠ [] := by
                obtain ⟨_, _, rfl⟩ := hcon
                simp
              have := pre_of_pre_replace pat1 h1 g (mid ++ [g]) rest.length rest q'
                (le_refl _) hq' (fun hm => hg (List.mem_cons_of_mem _ hm)) hin'
              exact hno ( List.IsPrefix.isInfix (List.cons_prefix_cons.mpr ⟨rfl, this⟩))
        · have hrest : ¬ pat2 <:+: rest := fun hd => hno (List.infix_cons hd)
          exact ih rest (by simpa using hs) hrest hin

theorem replace_elim (pat : List Char) (g : Char) (mid : List Char)
    (hpat : pat ≠ []) (hg : g ∉ pat) (hrep : ¬ pat <:+: (g :: (mid ++ [g]))) :
    ∀ n s, s.length ≤ n → ¬ pat <:+: pyReplace s pat (g :: (mid ++ [g])) := by
  intro n
  induction n with
  | zero =>
    intro s hs hin
    have : s = [] := List.length_eq_zero.mp (Nat.le_zero.mp hs)
    subst this
    rw [pyReplace_nil pat _ hpat] at hin
    rw [List.infix_nil] at hin
    exact hpat hin
  | succ n ih =>
    intro s hs hin
    by_cases hp : pat <+: s
    · rw [pyReplace_pos pat _ s hpat hp] at hin
      have hform : (g :: (mid ++ [g])) ++ pyReplace (s.drop pat.length) pat (g :: (mid ++ [g]))
          = g :: (mid ++ g :: pyReplace (s.drop pat.length) pat (g :: (mid ++ [g]))) := by
        simp
      rw [hform, List.infix_cons_iff] at hin
      rcases hin with hin | hin
      · cases pat with
        | nil => exact hpat rfl
        | cons a q' =>
          rw [List.cons_prefix_cons] at hin
          exact hg (hin.1 ▸ List.mem_cons_self a q')
      · rcases (infix_sep g pat hg mid _).mp hin with hin | hin
        · exact hrep (hin.trans (mid_infix_guard g mid))
        · have hlen : (s.drop pat.length).length ≤ n := by
            have : 1 ≤ pat.length := by
              cases pat with
              | nil => exact absurd rfl hpat
              | cons _ _ => simp
            have hs1 : 1 ≤ s.length := by
              have := hp.length_le
              omega
            simp
            omega
          exact ih (s.drop pat.length) hlen hin
    · cases s with
      | nil =>
        rw [pyReplace_nil pat _ hpat] at hin
        rw [List.infix_nil] at hin
        exact hpat hin
      | cons c rest =>
        rw [pyReplace_neg pat _ c rest hpat hp] at hin
        rw [List.infix_cons_iff] at hin
        rcases hin with hin | hin
        · cases pat with
          | nil => exact hpat rfl
          | cons a q' =>
            rw [List.cons_prefix_cons] at hin
            obtain ⟨rfl, hin'⟩ := hin
            rcases List.eq_nil_or_concat q' with rfl | hcon
            · exact hp (List.cons_prefix_cons.mpr ⟨rfl, List.nil_prefix⟩)
            · have hq' : q' ≠ [] := by
                obtain ⟨_, _, rfl⟩ := hcon
                simp
              have := pre_of_pre_replace (a :: q') hpat g (mid ++ [g]) rest.length rest q'
                (le_refl _) hq' (fun hm => hg (List.mem_cons_of_mem _ hm)) hin'
              exact hp (List.cons_prefix_cons.mpr ⟨rfl, this⟩)
        · exact ih rest (by simpa using hs) hin

theorem replace_length_ge (pat rep : List Char) (hpat : pat ≠ [])
    (hlen : pat.length ≤ rep.length) :
    ∀ n s, s.length ≤ n → s.length ≤ (pyReplace s pat rep).length := by
  intro n
  induction n with
  | zero =>
    intro s hs
    have : s = [] := List.length_eq_zero.mp (Nat.le_zero.mp hs)
    subst this
    rw [pyReplace_nil pat rep hpat]
  | succ n ih =>
    intro s hs
    by_cases hp : pat <+: s
    · rw [pyReplace_pos pat rep s hpat hp]
      have h1 : 1 ≤ pat.length := by
        cases pat with
        | nil => exact absurd rfl hpat
        | cons _ _ => simp
      have h2 := hp.length_le
      have h3 : (s.drop pat.length).length ≤ n := by simp; omega
      have h4 := ih (s.drop pat.length) h3
      have h5 : (s.drop pat.length).length = s.length - pat.length := by simp
      rw [List.length_append]
      omega
    · cases s with
      | nil => simp
      | cons c rest =>
        rw [pyReplace_neg pat rep c rest hpat hp]
        have := ih rest (by simpa using hs)
        simp
        omega

theorem replace_length_gt (pat rep : List Char) (hpat : pat ≠ [])
    (hlen : pat.length < rep.length) :
    ∀ n s, s.length ≤ n → pat <:+: s → s.length < (pyReplace s pat rep).length := by
  intro n
  induction n with
  | zero =>
    intro s hs hocc
    have : s = [] := List.length_eq_zero.mp (Nat.le_zero.mp hs)
    subst this
    rw [List.infix_nil] at hocc
    exact absurd hocc hpat
  | succ n ih =>
    intro s hs hocc
    by_cases hp : pat <+: s
    · rw [pyReplace_pos pat rep s hpat hp]
      have h1 : 1 ≤ pat.length := by
        cases pat with
        | nil => exact absurd rfl hpat
        | cons _ _ => simp
      have h2 := hp.length_le
      have h3 : (s.drop pat.length).length ≤ n := by simp; omega
      have h4 := replace_length_ge pat rep hpat (le_of_lt hlen) n (s.drop pat.length) h3
      have h5 : (s.drop pat.length).length = s.length - pat.length := by simp
      rw [List.length_append]
      omega
    · cases s with
      | nil =>
        rw [List.infix_nil] at hocc
        exact absurd hocc hpat
      | cons c rest =>
        rw [pyReplace_neg pat rep c rest hpat hp]
        rw [List.infix_cons_iff] at hocc
        rcases hocc with hocc | hocc
        · exact absurd hocc hp
        · have := ih rest (by simpa using hs) hocc
          simp
          omega

/-! ### JSON round trip -/

theorem hexDigitVal_hexDig : ∀ n, n < 16 → hexDigitVal (hexDig n) = some n := by decide

theorem hex4_u4 (n : Nat) (h : n < 65536) :
    hex4 (hexDig (n / 4096 % 16)) (hexDig (n / 256 % 16)) (hexDig (n / 16 % 16))
      (hexDig (n % 16)) = some n := by
  have h1 := hexDigitVal_hexDig (n / 4096 % 16) (by omega)
  have h2 := hexDigitVal_hexDig (n / 256 % 16) (by omega)
  have h3 := hexDigitVal_hexDig (n / 16 % 16) (by omega)
  have h4 := hexDigitVal_hexDig (n % 16) (by omega)
  unfold hex4
  rw [h1, h2, h3, h4]
  simp only [Option.some_bind, Option.map_some']
  congr 1
  omega

theorem char_not_surrogate (c : Char) : c.toNat < 0xd800 ∨ 0xdfff < c.toNat := by
  rcases c.valid with h | ⟨h, _⟩
  · exact Or.inl h
  · exact Or.inr h

theorem char_lt_codespace (c : Char) : c.toNat < 0x110000 := by
  rcases c.valid with h | ⟨_, h⟩
  · exact Nat.lt_trans h (by norm_num)
  · exact h

theorem escChar_ne_nil (c : Char) : escChar c ≠ [] := by
  unfold escChar
  repeat' split
  all_goals simp

theorem decodeStep_u (rest : List Char) : decodeStep ('\\' :: 'u' :: rest) = decodeU rest := by
  simp [decodeStep, decodeEsc]

theorem decodeLow_eq (hi : Nat) (a b e d : Char) (rest : List Char) :
    decodeLow hi ('\\' :: 'u' :: a :: b :: e :: d :: rest)
      = (hex4 a b e d).bind fun lo =>
          if 0xdc00 ≤ lo ∧ lo ≤ 0xdfff then
            some (Char.ofNat (0x10000 + (hi - 0xd800) * 0x400 + (lo - 0xdc00)), rest)
          else none := by
  rw [decodeLow, if_pos (And.intro rfl rfl)]

theorem decodeU_eq (a b e d : Char) (rest : List Char) :
    decodeU (a :: b :: e :: d :: rest)
      = (hex4 a b e d).bind fun n =>
          if n < 0xd800 ∨ 0xdfff < n then some (Char.ofNat n, rest)
          else if n ≤ 0xdbff then decodeLow n rest
          else none := by
  rw [decodeU]

theorem decodeStep_escChar (c : Char) (r : List Char) :
    decodeStep (escChar c ++ r) = some (c, r) := by
  by_cases h1 : c = '"'
  · subst h1; simp [escChar, decodeStep, decodeEsc]
  by_cases h2 : c = '\\'
  · subst h2; simp [escChar, decodeStep, decodeEsc]
  by_cases h3 : c = '\x08'
  · subst h3; simp [escChar, decodeStep, decodeEsc]
  by_cases h4 : c = '\x0c'
  · subst h4; simp [escChar, decodeStep, decodeEsc]
  by_cases h5 : c = '\n'
  · subst h5; simp [escChar, decodeStep, decodeEsc]
  by_cases h6 : c = '\r'
  · subst h6; simp [escChar, decodeStep, decodeEsc]
  by_cases h7 : c = '\t'
  · subst h7; simp [escChar, decodeStep, decodeEsc]
  by_cases h8 : c.toNat < 0x20
  · have he : escChar c ++ r = '\\' :: 'u' :: (u4 c.toNat ++ r) := by
      simp [escChar, h1, h2, h3, h4, h5, h6, h7, h8]
    rw [he, decodeStep_u]
    simp only [u4, List.cons_append, List.nil_append]
    rw [decodeU_eq, hex4_u4 c.toNat (by omega), Option.some_bind]
    rw [if_pos (Or.inl (by omega : c.toNat < 0xd800))]
    rw [Char.ofNat_toNat]
  by_cases h9 : c.toNat ≤ 0x7e
  · have he : escChar c ++ r = c :: r := by
      simp [escChar, h1, h2, h3, h4, h5, h6, h7, h8, h9]
    rw [he]
    simp only [decodeStep]
    rw [if_neg h2, if_neg (by push_neg; exact ⟨h1, by omega⟩)]
  by_cases h10 : c.toNat ≤ 0xffff
  · have he : escChar c ++ r = '\\' :: 'u' :: (u4 c.toNat ++ r) := by
      simp [escChar, h1, h2, h3, h4, h5, h6, h7, h8, h9, h10]
    rw [he, decodeStep_u]
    simp only [u4, List.cons_append, List.nil_append]
    rw [decodeU_eq, hex4_u4 c.toNat (by omega), Option.some_bind]
    rw [if_pos (char_not_surrogate c)]
    rw [Char.ofNat_toNat]
  · have hcode := char_lt_codespace c
    have he : escChar c ++ r = '\\' :: 'u' ::
        (u4 (0xd800 + (c.toNat - 0x10000) / 0x400) ++
          ('\\' :: 'u' :: (u4 (0xdc00 + (c.toNat - 0x10000) % 0x400) ++ r))) := by
      simp [escChar, h1, h2, h3, h4, h5, h6, h7, h8, h9, h10]
    rw [he, decodeStep_u]
    have hhi : 0xd800 + (c.toNat - 0x10000) / 0x400 < 65536 := by omega
    have hlo : 0xdc00 + (c.toNat - 0x10000) % 0x400 < 65536 := by omega
    simp only [u4, List.cons_append, List.nil_append]
    rw [decodeU_eq, hex4_u4 _ hhi, Option.some_bind]
    rw [if_neg (by omega), if_pos (by omega : 0xd800 + (c.toNat - 0x10000) / 0x400 ≤ 0xdbff)]
    rw [decodeLow_eq, hex4_u4 _ hlo, Option.some_bind]
    rw [if_pos (by omega : 0xdc00 ≤ 0xdc00 + (c.toNat - 0x10000) % 0x400 ∧
      0xdc00 + (c.toNat - 0x10000) % 0x400 ≤ 0xdfff)]
    have hval : 0x10000 + (0xd800 + (c.toNat - 0x10000) / 0x400 - 0xd800) * 0x400 +
        (0xdc00 + (c.toNat - 0x10000) % 0x400 - 0xdc00) = c.toNat := by omega
    rw [hval, Char.ofNat_toNat]

theorem escChar_length_pos (c : Char) : 0 < (escChar c).length :=
  List.length_pos.mpr (escChar_ne_nil c)

theorem decode_escBody : ∀ (m : List Char) (fuel : Nat), (escBody m).length + 1 ≤ fuel →
    decodeBodyF fuel (escBody m ++ ['"']) = some m := by
  intro m
  induction m with
  | nil =>
    intro fuel h
    cases fuel with
    | zero => omega
    | succ f => simp [escBody, decodeBodyF]
  | cons c m' ih =>
    intro fuel h
    cases fuel with
    | zero => omega
    | succ f =>
      have hlen : 0 < (escChar c).length := escChar_length_pos c
      have hbody : escBody (c :: m') = escChar c ++ escBody m' := rfl
      have hblen : (escBody (c :: m')).length = (escChar c).length + (escBody m').length := by
        rw [hbody]; simp
      have hne : escBody (c :: m') ++ ['"'] ≠ ['"'] := by
        intro he
        have h9 : (escBody (c :: m') ++ ['"']).length = (['"'] : List Char).length :=
          congrArg List.length he
        rw [List.length_append, hblen] at h9
        simp only [List.length_singleton] at h9
        omega
      have hf : (escBody m').length + 1 ≤ f := by
        rw [hblen] at h
        omega
      show decodeBodyF (f + 1) (escBody (c :: m') ++ ['"']) = some (c :: m')
      rw [decodeBodyF, if_neg hne, hbody, List.append_assoc]
      rw [decodeStep_escChar c (escBody m' ++ ['"']), Option.some_bind]
      show (decodeBodyF f (escBody m' ++ ['"'])).map (fun l => c :: l) = some (c :: m')
      rw [ih f hf]
      rfl

theorem jsonLoads_jsonDumps (m : List Char) : jsonLoads (jsonDumps m) = some m := by
  have h : jsonLoads (jsonDumps m)
      = decodeBodyF (escBody m ++ ['"']).length (escBody m ++ ['"']) := rfl
  rw [h]
  exact decode_escBody m _ (by simp)

/-! ### Occurrence skipping over a JSON-encoded segment -/

theorem drop_append_le (a b : List Char) (i : Nat) (h : i ≤ a.length) :
    (a ++ b).drop i = a.drop i ++ b := by
  rw [List.drop_append_eq_append_drop, Nat.sub_eq_zero_of_le h, List.drop_zero]

theorem pre_of_append_le (pat a b : List Char) (h : pat <+: a ++ b)
    (hl : pat.length ≤ a.length) : pat <+: a := by
  have h1 := List.prefix_iff_eq_take.mp h
  rw [List.take_append_eq_append_take, Nat.sub_eq_zero_of_le hl, List.take_zero,
    List.append_nil] at h1
  rw [h1]
  exact List.take_prefix pat.length a

theorem rev_pre_of_append (pat a b : List Char) (h : pat <+: a ++ b)
    (hl : a.length ≤ pat.length) : a <+: pat := by
  obtain ⟨w, hw⟩ := h
  have h1 : a = (a ++ b).take a.length := (List.take_left a b).symm
  rw [← hw] at h1
  rw [List.take_append_eq_append_take, Nat.sub_eq_zero_of_le hl, List.take_zero,
    List.append_nil] at h1
  rw [h1]
  exact List.take_prefix a.length pat

theorem no_pre_in_dumps (pat : List Char) (hq : '"' ∉ pat) (x Z : List Char)
    (hno : ¬ pat <:+: jsonDumps x) :
    ∀ i, i < (jsonDumps x).length → ¬ pat <+: ((jsonDumps x).drop i ++ Z) := by
  intro i hi hpre
  have hQ : jsonDumps x = ('"' :: escBody x) ++ ['"'] := by simp [jsonDumps]
  have hlenQ : (jsonDumps x).length = ('"' :: escBody x).length + 1 := by
    rw [hQ]; simp
  have hiQ : i ≤ ('"' :: escBody x).length := by omega
  have hdrop : (jsonDumps x).drop i = (('"' :: escBody x).drop i) ++ ['"'] := by
    rw [hQ, drop_append_le _ _ i hiQ]
  rw [hdrop, List.append_assoc, List.singleton_append] at hpre
  have hQdrop := pre_through_sep '"' (('"' :: escBody x).drop i) pat Z hq hpre
  have hsub : ('"' :: escBody x).drop i <:+ ('"' :: escBody x) := List.drop_suffix i _
  have hQpre : ('"' :: escBody x) <+: jsonDumps x := by
    rw [hQ]; exact List.prefix_append _ _
  exact hno ((( List.IsPrefix.isInfix hQdrop).trans
    ( List.IsSuffix.isInfix hsub)).trans ( List.IsPrefix.isInfix hQpre))

theorem snoc_quote_pre : ∀ (mid x : List Char), '"' ∉ mid →
    (x ++ ['"']) <+: (mid ++ ['"']) → x = mid := by
  intro mid
  induction mid with
  | nil =>
    intro x _ hp
    have hlen := hp.length_le
    simp at hlen
    exact hlen
  | cons m0 mid' ih =>
    intro x hq hp
    cases x with
    | nil =>
      rw [List.nil_append, List.cons_append, List.cons_prefix_cons] at hp
      exact absurd (hp.1 ▸ List.mem_cons_self m0 mid') hq
    | cons y x' =>
      rw [List.cons_append, List.cons_append, List.cons_prefix_cons] at hp
      obtain ⟨rfl, hp'⟩ := hp
      rw [ih x' (fun hm => hq (List.mem_cons_of_mem _ hm)) hp']

theorem head_not_mem_not_infix (g : Char) (pat' s : List Char) (h : g ∉ s) :
    ¬ (g :: pat') <:+: s := by
  intro hin
  exact h (hin.subset (List.mem_cons_self g pat'))

theorem jsonDumps_guard (x : List Char) :
    jsonDumps x = '"' :: (escBody x ++ ['"']) := rfl

theorem no_S_pre_in_dumps (x W : List Char)
    (hno : ¬ jsonDumps default_sample <:+: jsonDumps x) :
    ∀ i, i < (jsonDumps x).length →
      ¬ jsonDumps default_sample <+: ((jsonDumps x).drop i ++ (tplB ++ W)) := by
  intro i hi hpre
  have hQ : jsonDumps x = ('"' :: escBody x) ++ ['"'] := by
    rw [jsonDumps_guard]; rfl
  have hlenQ : (jsonDumps x).length = ('"' :: escBody x).length + 1 := by
    rw [hQ]; simp
  have hiQ : i ≤ ('"' :: escBody x).length := by omega
  have hdrop : (jsonDumps x).drop i = (('"' :: escBody x).drop i) ++ ['"'] := by
    rw [hQ]
    exact drop_append_le _ _ i hiQ
  by_cases hcase : (jsonDumps default_sample).length ≤ ((jsonDumps x).drop i).length
  · have hSd : jsonDumps default_sample <+: (jsonDumps x).drop i :=
      pre_of_append_le _ _ _ hpre hcase
    exact hno (List.infix_iff_prefix_suffix.mpr ⟨_, hSd, List.drop_suffix i _⟩)
  · push_neg at hcase
    have hdS : (jsonDumps x).drop i <+: jsonDumps default_sample :=
      rev_pre_of_append _ _ _ hpre (le_of_lt hcase)
    rw [hdrop] at hdS hpre hcase
    cases he : ('"' :: escBody x).drop i with
    | nil =>
      rw [he, List.nil_append, List.singleton_append] at hpre
      rw [jsonDumps_guard default_sample, List.cons_prefix_cons] at hpre
      have hpre' := hpre.2
      have hE : escBody default_sample = 'E' :: (escBody default_sample).tail := by decide
      have hB : tplB = ';' :: (" var sample = ").data := by decide
      rw [hE, hB, List.cons_append, List.cons_append, List.cons_prefix_cons] at hpre'
      exact absurd hpre'.1 (by decide)
    | cons e0 e' =>
      rw [he] at hdS hcase
      rw [jsonDumps_guard default_sample, List.cons_append, List.cons_prefix_cons] at hdS
      have heq := snoc_quote_pre (escBody default_sample) e' (by decide) hdS.2
      rw [heq] at hcase
      have hlen1 : ((e0 :: escBody default_sample) ++ ['"']).length
          = (escBody default_sample).length + 2 := by simp
      have hlen2 : (jsonDumps default_sample).length = (escBody default_sample).length + 2 := by
        rw [jsonDumps_guard]; simp
      omega

/-! ### Structure of the built page on the modelled template -/

theorem preloadTok_cons : preloadTok = '_' :: ("_PRELOAD__").data := by decide

theorem sampleTok_cons : sampleTok = '_' :: ("_SAMPLE__").data := by decide

theorem underscore_not_tplA : '_' ∉ tplA := by decide

theorem underscore_not_tplB : '_' ∉ tplB := by decide

theorem quote_not_tplA : '"' ∉ tplA := by decide

theorem quote_not_tplB : '"' ∉ tplB := by decide

theorem quote_not_tplC : '"' ∉ tplC := by decide

theorem quote_not_sampleTok : '"' ∉ sampleTok := by decide

theorem sampleTok_ne_nil : sampleTok ≠ [] := by decide

theorem preloadTok_ne_nil : preloadTok ≠ [] := by decide

theorem jsonDumps_ne_nil (x : List Char) : jsonDumps x ≠ [] := by
  rw [jsonDumps_guard]
  simp

theorem pyReplace_skip_preload (rep a r : List Char) (h : '_' ∉ a) :
    pyReplace (a ++ r) preloadTok rep = a ++ pyReplace r preloadTok rep := by
  rw [preloadTok_cons]
  exact pyReplace_skip_head _ _ _ _ _ h

theorem pyReplace_skip_sample (rep a r : List Char) (h : '_' ∉ a) :
    pyReplace (a ++ r) sampleTok rep = a ++ pyReplace r sampleTok rep := by
  rw [sampleTok_cons]
  exact pyReplace_skip_head _ _ _ _ _ h

theorem pyCount_skip_sampleDumps (a r : List Char) (h : '"' ∉ a) :
    pyCount (a ++ r) (jsonDumps default_sample) = pyCount r (jsonDumps default_sample) := by
  rw [jsonDumps_guard]
  exact pyCount_skip_head _ _ _ _ h

theorem preload_no_occ_tail : ¬ preloadTok <:+: (tplB ++ (sampleTok ++ tplC)) :=
  not_infix_of_containsSub _ _ (by decide)

theorem sample_no_occ_tplC : ¬ sampleTok <:+: tplC :=
  not_infix_of_containsSub _ _ (by decide)

theorem templateModel_assoc :
    templateModel = tplA ++ (preloadTok ++ (tplB ++ (sampleTok ++ tplC))) := by
  unfold templateModel
  simp [List.append_assoc]

theorem build_page_model (m : List Char) (h1 : ¬ sampleTok <:+: jsonDumps m) :
    build_page m templateModel
      = tplA ++ (jsonDumps m ++ (tplB ++ (jsonDumps default_sample ++ tplC))) := by
  have hstep1 : pyReplace templateModel preloadTok (jsonDumps m)
      = tplA ++ (jsonDumps m ++ (tplB ++ (sampleTok ++ tplC))) := by
    rw [templateModel_assoc]
    rw [pyReplace_skip_preload (jsonDumps m) tplA _ underscore_not_tplA]
    rw [pyReplace_match_head preloadTok (jsonDumps m) _ preloadTok_ne_nil]
    rw [pyReplace_no_occ preloadTok (jsonDumps m) _ preloadTok_ne_nil preload_no_occ_tail]
  show pyReplace (pyReplace templateModel preloadTok (jsonDumps m)) sampleTok
      (jsonDumps default_sample) = _
  rw [hstep1]
  rw [pyReplace_skip_sample (jsonDumps default_sample) tplA _ underscore_not_tplA]
  rw [pyReplace_skip sampleTok (jsonDumps default_sample) sampleTok_ne_nil (jsonDumps m) _
    (no_pre_in_dumps sampleTok quote_not_sampleTok m _ h1)]
  rw [pyReplace_skip_sample (jsonDumps default_sample) tplB _ underscore_not_tplB]
  rw [pyReplace_match_head sampleTok (jsonDumps default_sample) tplC sampleTok_ne_nil]
  rw [pyReplace_no_occ sampleTok (jsonDumps default_sample) tplC sampleTok_ne_nil
    sample_no_occ_tplC]

theorem count_sample_model (m : List Char) (h1 : ¬ sampleTok <:+: jsonDumps m)
    (h2 : ¬ jsonDumps default_sample <:+: jsonDumps m) :
    pyCount (build_page m templateModel) (jsonDumps default_sample) = 1 := by
  rw [build_page_model m h1]
  rw [pyCount_skip_sampleDumps tplA _ quote_not_tplA]
  rw [pyCount_skip (jsonDumps default_sample) (jsonDumps_ne_nil default_sample) (jsonDumps m) _
    (no_S_pre_in_dumps m _ h2)]
  rw [pyCount_skip_sampleDumps tplB _ quote_not_tplB]
  rw [pyCount_match_head (jsonDumps default_sample) tplC (jsonDumps_ne_nil default_sample)]
  rw [pyCount_no_occ (jsonDumps default_sample) tplC (jsonDumps_ne_nil default_sample)
    (by rw [jsonDumps_guard]; exact head_not_mem_not_infix '"' _ _ quote_not_tplC)]

/-! ### Normalization lemmas -/

theorem wrapped_ne_nil (t : List Char) : ("$$\n").data ++ t ++ ("\n$$").data ≠ [] := by
  simp

theorem wrapped_any (t : List Char) :
    (markers.any fun m => containsSub m (("$$\n").data ++ t ++ ("\n$$").data)) = true := by
  have hcons : ("$$\n").data ++ t ++ ("\n$$").data
      = '$' :: '$' :: '\n' :: (t ++ ("\n$$").data) := by simp
  have h : containsSub (("$$").data) (("$$\n").data ++ t ++ ("\n$$").data) = true := by
    rw [hcons]
    simp [containsSub, List.isPrefixOf]
  simp only [markers, List.any_cons, List.any_nil, Bool.or_eq_true, Bool.or_eq_false_iff]
  rw [hcons] at h
  exact Or.inr (Or.inr (Or.inl h))

theorem pyStrip_normalize (s : List Char) :
    pyStrip (normalize_latex s) = normalize_latex s := by
  unfold normalize_latex
  by_cases h1 : pyStrip s = []
  · rw [if_pos h1]
    rfl
  · rw [if_neg h1]
    by_cases h2 : (markers.any fun m => containsSub m (pyStrip s)) = true
    · rw [if_pos h2]
      exact pyStrip_idem s
    · rw [if_neg h2]
      exact pyStrip_wrapped (pyStrip s)

/-! ### Claim theorems -/

/-- C1: for every input string, `normalize_latex` follows the three-step
algorithm: strip whitespace; return the empty string when the stripped text
is empty; return the stripped text unchanged when any one of the five
tokens occurs anywhere in it as a substring (presence-based, so a single
stray closing marker also suppresses wrapping); otherwise wrap it as
`$$`, newline, text, newline, `$$`. -/
theorem claim1_normalize_algorithm (s : List Char) :
    normalize_latex s =
      if pyStrip s = [] then []
      else if ∃ m ∈ markers, m <:+: pyStrip s then pyStrip s
      else ("$$\n").data ++ pyStrip s ++ ("\n$$").data := by
  unfold normalize_latex
  by_cases h1 : pyStrip s = []
  · rw [if_pos h1, if_pos h1]
  · rw [if_neg h1, if_neg h1]
    by_cases h2 : ∃ m ∈ markers, m <:+: pyStrip s
    · have hb : (markers.any fun m => containsSub m (pyStrip s)) = true := by
        rw [List.any_eq_true]
        obtain ⟨m, hm, hmi⟩ := h2
        exact ⟨m, hm, (containsSub_iff m _).mpr hmi⟩
      rw [if_pos hb, if_pos h2]
    · have hb : ¬ ((markers.any fun m => containsSub m (pyStrip s)) = true) := by
        rw [List.any_eq_true]
        rintro ⟨m, hm, hc⟩
        exact h2 ⟨m, hm, (containsSub_iff m _).mp hc⟩
      rw [if_neg hb, if_neg h2]

/-- C2: normalization is idempotent: normalizing an already-normalized
string returns it unchanged. -/
theorem claim2_normalize_idempotent (s : List Char) :
    normalize_latex (normalize_latex s) = normalize_latex s := by
  by_cases h1 : pyStrip s = []
  · have hv : normalize_latex s = [] := by
      unfold normalize_latex
      rw [if_pos h1]
    rw [hv]
    unfold normalize_latex
    rw [if_pos (show pyStrip [] = [] from rfl)]
  · by_cases h2 : (markers.any fun m => containsSub m (pyStrip s)) = true
    · have hv : normalize_latex s = pyStrip s := by
        unfold normalize_latex
        rw [if_neg h1, if_pos h2]
      rw [hv]
      unfold normalize_latex
      rw [pyStrip_idem s]
      rw [if_neg h1, if_pos h2]
    · have hv : normalize_latex s = ("$$\n").data ++ pyStrip s ++ ("\n$$").data := by
        unfold normalize_latex
        rw [if_neg h1, if_neg h2]
      rw [hv]
      unfold normalize_latex
      rw [pyStrip_wrapped (pyStrip s)]
      rw [if_neg (wrapped_ne_nil _), if_pos (wrapped_any _)]

/-- C3 counterexample: on the empty template the output of `build_page`
contains the JSON-encoded fallback sample zero times, not exactly once, so
the claim is false when quantified over every template string. -/
theorem claim3_counterexample :
    pyCount (build_page (("x").data) []) (jsonDumps default_sample) ≠ 1 := by decide

/-- C3 amended: for every markup string whose JSON-encoded form contains
neither the sample placeholder token nor the JSON-encoded fallback sample,
the output of `build_page` on the repository template (modelled from the
spec) contains the JSON-encoded fallback sample exactly once. -/
theorem claim3_sample_exactly_once (m : List Char)
    (h1 : containsSub sampleTok (jsonDumps m) = false)
    (h2 : containsSub (jsonDumps default_sample) (jsonDumps m) = false) :
    pyCount (build_page m templateModel) (jsonDumps default_sample) = 1 :=
  count_sample_model m (not_infix_of_containsSub _ _ h1) (not_infix_of_containsSub _ _ h2)

/-- C3 witness: the amended claim applied to the markup `x^2`. -/
theorem claim3_witness :
    containsSub sampleTok (jsonDumps (("x^2").data)) = false
    ∧ containsSub (jsonDumps default_sample) (jsonDumps (("x^2").data)) = false
    ∧ pyCount (build_page (("x^2").data) templateModel) (jsonDumps default_sample) = 1 :=
  ⟨by decide, by decide, claim3_sample_exactly_once (("x^2").data) (by decide) (by decide)⟩

/-- C4: for every markup string containing a double-quote character,
JSON-decoding the JSON-encoded string that `build_page` substitutes for the
content placeholder (which is `jsonDumps` of the markup, by definition of
`build_page`) reproduces the markup exactly. -/
theorem claim4_embed_roundtrip (m : List Char) (_h : '"' ∈ m) :
    jsonLoads (jsonDumps m) = some m := jsonLoads_jsonDumps m

/-- C4 witness: the round trip applied to a markup containing a quote. -/
theorem claim4_witness :
    ('"' ∈ (['a', '"'] : List Char))
    ∧ jsonLoads (jsonDumps ['a', '"']) = some ['a', '"'] :=
  ⟨by decide, claim4_embed_roundtrip ['a', '"'] (by decide)⟩

/-- C9: the output of `normalize_latex` never has leading or trailing
whitespace: stripping it returns it unchanged. -/
theorem claim9_normalize_stripped (s : List Char) :
    pyStrip (normalize_latex s) = normalize_latex s := pyStrip_normalize s

/-- C5 counterexample: when the template lacks the sample placeholder but
the JSON-encoded markup contains it, the sample substitution is not a
no-op: the output differs from performing only the content substitution.
So the claim is false as stated. -/
theorem claim5_counterexample :
    build_page (("__SAMPLE__").data) preloadTok
      ≠ pyReplace preloadTok preloadTok (jsonDumps (("__SAMPLE__").data)) := by decide

/-- C5 amended: if the content placeholder does not occur in the template,
its substitution is a no-op and the sample substitution is still performed;
if the sample placeholder occurs neither in the template nor in the
JSON-encoded markup, its substitution is a no-op and the content
substitution is still performed.  No error is raised in either case
(`build_page` is total). -/
theorem claim5_missing_placeholder_noop (m t : List Char) :
    (containsSub preloadTok t = false →
      build_page m t = pyReplace t sampleTok (jsonDumps default_sample))
    ∧ (containsSub sampleTok t = false → containsSub sampleTok (jsonDumps m) = false →
      build_page m t = pyReplace t preloadTok (jsonDumps m)) := by
  constructor
  · intro h
    show pyReplace (pyReplace t preloadTok (jsonDumps m)) sampleTok (jsonDumps default_sample)
        = _
    rw [pyReplace_no_occ preloadTok (jsonDumps m) t preloadTok_ne_nil
      (not_infix_of_containsSub _ _ h)]
  · intro ht hm
    show pyReplace (pyReplace t preloadTok (jsonDumps m)) sampleTok (jsonDumps default_sample)
        = _
    have hrep : ¬ sampleTok <:+: ('"' :: (escBody m ++ ['"'])) := by
      rw [← jsonDumps_guard]
      exact not_infix_of_containsSub _ _ hm
    have helim : ¬ sampleTok <:+: pyReplace t preloadTok ('"' :: (escBody m ++ ['"'])) :=
      no_new_occurrence preloadTok sampleTok '"' (escBody m) preloadTok_ne_nil
        quote_not_sampleTok hrep t.length t (le_refl _)
        (not_infix_of_containsSub _ _ ht)
    rw [pyReplace_no_occ sampleTok (jsonDumps default_sample) _ sampleTok_ne_nil
      (by rw [jsonDumps_guard m]; exact helim)]

/-- C5 witness: the amended claim applied to markup `x` and template
`hello`, which contains neither placeholder. -/
theorem claim5_witness :
    build_page (("x").data) (("hello").data)
      = pyReplace (("hello").data) sampleTok (jsonDumps default_sample)
    ∧ build_page (("x").data) (("hello").data)
      = pyReplace (("hello").data) preloadTok (jsonDumps (("x").data)) :=
  ⟨(claim5_missing_placeholder_noop (("x").data) (("hello").data)).1 (by decide),
   (claim5_missing_placeholder_noop (("x").data) (("hello").data)).2 (by decide) (by decide)⟩

/-- C6: when the file argument names no existing regular file, the input
resolver fails with `No such file: <path>` before any other processing (the
result does not depend on the text argument or on standard input), and the
whole run prints exactly `Error: No such file: <path>` to standard error
and exits with a non-zero status. -/
theorem claim6_missing_file_error (p : List Char) (text : Option (List Char)) (op : Bool)
    (fs : List Char → Option (List Char)) (stdin : List Char)
    (template : Option (List Char)) (tplPath outPath : List Char) (viewerOk : Bool)
    (hmiss : fs p = none) :
    load_latex ⟨some p, text, op⟩ fs stdin = Except.error (("No such file: ").data ++ p)
    ∧ (∀ text2 stdin2, load_latex ⟨some p, text2, op⟩ fs stdin2
        = load_latex ⟨some p, text, op⟩ fs stdin)
    ∧ run_main ⟨some p, text, op⟩ fs stdin template tplPath outPath viewerOk
        = ⟨[], ("Error: No such file: ").data ++ p, 1⟩ := by
  have hload : ∀ (t2 : Option (List Char)) (s2 : List Char),
      load_latex ⟨some p, t2, op⟩ fs s2
        = Except.error (("No such file: ").data ++ p) := by
    intro t2 s2
    unfold load_latex
    simp [hmiss]
  refine ⟨hload text stdin, fun t2 s2 => by rw [hload, hload], ?_⟩
  unfold run_main
  rw [hload]
  have hmsg : ("Error: ").data ++ (("No such file: ").data ++ p)
      = ("Error: No such file: ").data ++ p := by
    rw [← List.append_assoc]
    rfl
  show (⟨[], ("Error: ").data ++ (("No such file: ").data ++ p), 1⟩ : Outcome) = _
  rw [hmsg]

/-- C6 witness: a file system with no files and the path `in.tex`. -/
theorem claim6_witness :
    (fun _ => (none : Option (List Char))) (("in.tex").data) = none
    ∧ run_main ⟨some (("in.tex").data), none, false⟩ (fun _ => none) [] none [] [] false
        = ⟨[], ("Error: No such file: in.tex").data, 1⟩ :=
  ⟨rfl, (claim6_missing_file_error (("in.tex").data) none false (fun _ => none) [] none
    [] [] false rfl).2.2⟩

/-- C7: when input resolution succeeds and the template exists, the run
reports the output location with exit code 0, and the outcome is the same
whether or not the viewer launch succeeds: a viewer-launch failure never
turns the successful write into a failed run. -/
theorem claim7_viewer_failure_nonfatal (args : Args) (fs : List Char → Option (List Char))
    (stdin raw tpl tplPath outPath : List Char)
    (hload : load_latex args fs stdin = Except.ok raw) (v1 v2 : Bool) :
    run_main args fs stdin (some tpl) tplPath outPath v1
      = run_main args fs stdin (some tpl) tplPath outPath v2
    ∧ (run_main args fs stdin (some tpl) tplPath outPath v1).exitCode = 0
    ∧ (run_main args fs stdin (some tpl) tplPath outPath v1).stdout
        = ("Preview written to ").data ++ outPath := by
  unfold run_main
  rw [hload]
  exact ⟨rfl, rfl, rfl⟩

/-- C7 witness: a run from a literal text argument with a present template,
compared across a failing and a succeeding viewer launch. -/
theorem claim7_witness :
    load_latex ⟨none, some (("x").data), true⟩ (fun _ => none) [] = Except.ok (("x").data)
    ∧ run_main ⟨none, some (("x").data), true⟩ (fun _ => none) [] (some [])
        [] (("/tmp/out.html").data) false
      = run_main ⟨none, some (("x").data), true⟩ (fun _ => none) [] (some [])
        [] (("/tmp/out.html").data) true
    ∧ (run_main ⟨none, some (("x").data), true⟩ (fun _ => none) [] (some [])
        [] (("/tmp/out.html").data) false).exitCode = 0 := by
  have h := claim7_viewer_failure_nonfatal ⟨none, some (("x").data), true⟩ (fun _ => none)
    [] (("x").data) [] [] (("/tmp/out.html").data) rfl false true
  exact ⟨rfl, h.1, h.2.1⟩

/-- C8: with no file argument and an empty literal text argument, the
resolver falls through to reading standard input (the truthiness test on
the text), yielding the same result as when no text argument is passed:
the raw stream when its stripped form is non-empty, the empty string
otherwise — never the empty text verbatim taken from the argument. -/
theorem claim8_empty_text_falls_to_stdin (fs : List Char → Option (List Char))
    (stdin : List Char) (op : Bool) :
    load_latex ⟨none, some [], op⟩ fs stdin = load_latex ⟨none, none, op⟩ fs stdin
    ∧ load_latex ⟨none, some [], op⟩ fs stdin
        = (if pyStrip stdin = [] then Except.ok [] else Except.ok stdin) := by
  unfold load_latex loadStdin
  simp

/-- C10: `build_page` substitutes the content placeholder strictly before
the sample placeholder on the whole document, so occurrences of the sample
placeholder inside the JSON-encoded user content are themselves replaced:
no occurrence of the token survives in the output for any template, and on
a template that is exactly the content placeholder the document is the
encoded content with its sample-placeholder occurrences replaced by the
encoded sample, which strictly lengthens it. -/
theorem claim10_preload_before_sample (m t : List Char)
    (h : containsSub sampleTok (jsonDumps m) = true) :
    containsSub sampleTok (build_page m t) = false
    ∧ build_page m preloadTok
        = pyReplace (jsonDumps m) sampleTok (jsonDumps default_sample)
    ∧ (jsonDumps m).length
        < (pyReplace (jsonDumps m) sampleTok (jsonDumps default_sample)).length := by
  refine ⟨?_, ?_, ?_⟩
  · have hrep : ¬ sampleTok <:+: ('"' :: (escBody default_sample ++ ['"'])) := by
      rw [← jsonDumps_guard]
      exact not_infix_of_containsSub _ _ (by decide)
    have helim := replace_elim sampleTok '"' (escBody default_sample) sampleTok_ne_nil
      quote_not_sampleTok hrep (pyReplace t preloadTok (jsonDumps m)).length
      (pyReplace t preloadTok (jsonDumps m)) (le_refl _)
    rw [Bool.eq_false_iff]
    intro hc
    rw [containsSub_iff] at hc
    rw [← jsonDumps_guard default_sample] at helim
    exact helim hc
  · have h2 : pyReplace preloadTok preloadTok (jsonDumps m) = jsonDumps m := by
      have h3 := pyReplace_match_head preloadTok (jsonDumps m) [] preloadTok_ne_nil
      rw [List.append_nil] at h3
      rw [h3, pyReplace_nil preloadTok _ preloadTok_ne_nil, List.append_nil]
    show pyReplace (pyReplace preloadTok preloadTok (jsonDumps m)) sampleTok
        (jsonDumps default_sample) = _
    rw [h2]
  · exact replace_length_gt sampleTok (jsonDumps default_sample) sampleTok_ne_nil
      (by decide) (jsonDumps m).length (jsonDumps m) (le_refl _)
      ((containsSub_iff _ _).mp h)

/-- C10 witness: markup that is itself the sample placeholder. -/
theorem claim10_witness :
    containsSub sampleTok (jsonDumps (("__SAMPLE__").data)) = true
    ∧ containsSub sampleTok (build_page (("__SAMPLE__").data) (("z").data)) = false :=
  ⟨by decide, (claim10_preload_before_sample (("__SAMPLE__").data) (("z").data) (by decide)).1⟩
